import Mathlib

/-!
# BTF-Dumper: verification of the type-graph conversion and closure-traversal engine

This file gives a shallow embedding of the Go program `main.go` of BTF-Dumper.
The Type Store is modelled arena-style, exactly as the specification's design
notes prescribe: a list of source-side type nodes, where a node's ID is its
index in the list, and every cross-reference between nodes is a numeric ID.
Go maps are modelled as insertion-ordered association lists with
overwrite-on-existing-key semantics (`insertAssoc`), which reproduces Go's
assignment semantics `m[k] = v`; Go map iteration is modelled as iteration of
that association list.

External library functions from `github.com/cilium/ebpf/btf` that the source
calls (`UnderlyingType`, `Sizeof`, `TypeByName`, `AnyTypeByName`, `TypeByID`,
`TypeID`) are not part of the repository; where a claim depends on them they
are modelled from the specification's words and marked as such in their doc
comments.  Everything else is translated from `src/main.go`.
-/

/-- The two global flags of the program (`-dereference` and `-as-map`),
threaded explicitly as a configuration value. -/
structure Config where
  isDereference : Bool
  isAsMap : Bool
deriving Repr, DecidableEq

/-! ## Source-side data model (the Type Store's nodes)

These mirror the fields of the `btf.*` node types that `main.go` reads.
String-valued enumerations of the library (`IntEncoding`, `FuncLinkage`,
`VarLinkage`, `FwdKind`) are modelled by the strings their `String()`
methods produce. -/

structure SrcInt where
  Name : String
  Size : Nat
  Encoding : String
deriving Repr, DecidableEq

structure SrcPointer where
  Target : Nat
deriving Repr, DecidableEq

structure SrcArray where
  Index : Nat
  Type' : Nat
  Nelems : Nat
deriving Repr, DecidableEq

/-- A struct/union member: `btf.Member`.  `Offset` of the library is a bit
offset; `main.go` exports `member.Offset.Bytes()`, i.e. the offset divided
by eight. -/
structure SrcMember where
  Name : String
  Type' : Nat
  OffsetBits : Nat
  BitfieldSize : Nat
deriving Repr, DecidableEq

structure SrcStruct where
  Name : String
  Size : Nat
  Members : List SrcMember
deriving Repr, DecidableEq

structure SrcUnion where
  Name : String
  Size : Nat
  Members : List SrcMember
deriving Repr, DecidableEq

structure SrcEnumValue where
  Name : String
  Value : Nat
deriving Repr, DecidableEq

structure SrcEnum where
  Name : String
  Size : Nat
  Signed : Bool
  Values : List SrcEnumValue
deriving Repr, DecidableEq

structure SrcFwd where
  Name : String
  Kind : String
deriving Repr, DecidableEq

structure SrcTypedef where
  Name : String
  Type' : Nat
deriving Repr, DecidableEq

structure SrcVolatile where
  Type' : Nat
deriving Repr, DecidableEq

structure SrcConst where
  Type' : Nat
deriving Repr, DecidableEq

structure SrcRestrict where
  Type' : Nat
deriving Repr, DecidableEq

structure SrcFunc where
  Name : String
  Type' : Nat
  Linkage : String
deriving Repr, DecidableEq

structure SrcFuncParam where
  Name : String
  Type' : Nat
deriving Repr, DecidableEq

structure SrcFuncProto where
  Return : Nat
  Params : List SrcFuncParam
deriving Repr, DecidableEq

structure SrcVar where
  Name : String
  Type' : Nat
  Linkage : String
deriving Repr, DecidableEq

structure SrcVarSecInfo where
  Type' : Nat
  Offset : Nat
  Size : Nat
deriving Repr, DecidableEq

structure SrcDatasec where
  Name : String
  Size : Nat
  Vars : List SrcVarSecInfo
deriving Repr, DecidableEq

structure SrcFloat where
  Name : String
  Size : Nat
deriving Repr, DecidableEq

/-- A node of the Type Store: the closed tagged variant over the 17 concrete
`btf.Type` implementations `main.go`'s type switch handles. -/
inductive TypeNode where
  | void
  | int (t : SrcInt)
  | pointer (t : SrcPointer)
  | array (t : SrcArray)
  | struct (t : SrcStruct)
  | union (t : SrcUnion)
  | enum (t : SrcEnum)
  | fwd (t : SrcFwd)
  | typedef (t : SrcTypedef)
  | volatile (t : SrcVolatile)
  | const (t : SrcConst)
  | restrict (t : SrcRestrict)
  | func (t : SrcFunc)
  | funcProto (t : SrcFuncProto)
  | var (t : SrcVar)
  | datasec (t : SrcDatasec)
  | float (t : SrcFloat)
deriving Repr, DecidableEq

/-- The Type Store: nodes addressed by their index.  The specification's
arena-plus-index pattern; iteration order is list order. -/
abbrev Store := List TypeNode

/-- The `TypeName()` method of `btf.Type`: the declared name of the node, or
the empty string for the categories that carry none. -/
def nodeName : TypeNode → String
  | .void => ""
  | .int t => t.Name
  | .pointer _ => ""
  | .array _ => ""
  | .struct t => t.Name
  | .union t => t.Name
  | .enum t => t.Name
  | .fwd t => t.Name
  | .typedef t => t.Name
  | .volatile _ => ""
  | .const _ => ""
  | .restrict _ => ""
  | .func t => t.Name
  | .funcProto _ => ""
  | .var t => t.Name
  | .datasec t => t.Name
  | .float t => t.Name

/-- Whether two nodes have the same category (the dynamic-type comparison
`reflect` performs when `TypeByName` matches a candidate against the
zero-valued node produced by `NameToBTFType`). -/
def sameKind : TypeNode → TypeNode → Bool
  | .void, .void => true
  | .int _, .int _ => true
  | .pointer _, .pointer _ => true
  | .array _, .array _ => true
  | .struct _, .struct _ => true
  | .union _, .union _ => true
  | .enum _, .enum _ => true
  | .fwd _, .fwd _ => true
  | .typedef _, .typedef _ => true
  | .volatile _, .volatile _ => true
  | .const _, .const _ => true
  | .restrict _, .restrict _ => true
  | .func _, .func _ => true
  | .funcProto _, .funcProto _ => true
  | .var _, .var _ => true
  | .datasec _, .datasec _ => true
  | .float _, .float _ => true
  | _, _ => false

/-- The qualifier/typedef wrapper categories of the ID Resolution Rule. -/
def isWrapper : TypeNode → Bool
  | .typedef _ => true
  | .volatile _ => true
  | .const _ => true
  | .restrict _ => true
  | _ => false

/-- The single inner reference of a wrapper node. -/
def wrapperInner : TypeNode → Option Nat
  | .typedef t => some t.Type'
  | .volatile t => some t.Type'
  | .const t => some t.Type'
  | .restrict t => some t.Type'
  | _ => none

/-- Modelled from the spec: the external library's `btf.UnderlyingType`,
which `GetTypeID` calls when the dereference flag is set.  It strips away
any chain of qualifier/typedef wrapper categories (const, volatile,
restrict, typedef) by repeatedly following their single inner reference
until a non-wrapper category is reached.  The recursion is bounded by fuel;
every terminating chain visits pairwise distinct nodes, so fuel exceeding
the store size never runs out on a chain that reaches a non-wrapper. -/
def UnderlyingType (store : Store) : Nat → Nat → Nat
  | 0, i => i
  | fuel + 1, i =>
    match store[i]? with
    | some t =>
      match wrapperInner t with
      | some inner => UnderlyingType store fuel inner
      | none => i
    | none => i

/-- Modelled from the spec: the external library's `btf.Sizeof`, used for the
per-member byte size of struct/union members: the byte size of the member's
resolved type, and zero if unresolvable.  Sized categories report their
recorded size, pointers are eight bytes, arrays multiply the element size,
wrappers defer to their inner type, everything else is unresolvable. -/
def SizeofOrZero (store : Store) : Nat → Nat → Nat
  | 0, _ => 0
  | fuel + 1, i =>
    match store[i]? with
    | some (.int t) => t.Size
    | some (.struct t) => t.Size
    | some (.union t) => t.Size
    | some (.enum t) => t.Size
    | some (.float t) => t.Size
    | some (.pointer _) => 8
    | some (.array t) => t.Nelems * SizeofOrZero store fuel t.Type'
    | some (.typedef t) => SizeofOrZero store fuel t.Type'
    | some (.volatile t) => SizeofOrZero store fuel t.Type'
    | some (.const t) => SizeofOrZero store fuel t.Type'
    | some (.restrict t) => SizeofOrZero store fuel t.Type'
    | _ => 0

/-- The function `GetTypeID` of `main.go`: convert a type reference to an ID.  With the
dereference flag unset the reference's own ID is returned; with it set the
reference is first resolved through `UnderlyingType`.  In the arena model a
live reference *is* its ID, so the library's `reader.TypeID` lookup is the
identity. -/
def GetTypeID (cfg : Config) (store : Store) (t : Nat) : Nat :=
  if cfg.isDereference then UnderlyingType store (store.length + 1) t
  else t

/-! ## Exported (JSON-safe) data model: the `BTF*` structures of `main.go` -/

structure BTFVoid where
  TypeName : String
deriving Repr, DecidableEq

structure BTFInt where
  TypeName : String
  Name : String
  Size : Nat
  Encoding : String
deriving Repr, DecidableEq

structure BTFPointer where
  TypeName : String
  TargetType : Nat
deriving Repr, DecidableEq

structure BTFArray where
  TypeName : String
  IndexType : Nat
  ElemType : Nat
  Count : Nat
deriving Repr, DecidableEq

structure BTFStructMember where
  Name : String
  Type' : Nat
  Offset : Nat
  BitFieldSize : Nat
  Size : Nat
deriving Repr, DecidableEq

/-- The exported `BTFStruct`: the two output shapes are `Option`s; the Go `nil` slice/map
with `omitempty` is `none`, the populated shape is `some`.  The Go
`map[string]*BTFStructMember` is an insertion-ordered association list. -/
structure BTFStruct where
  TypeName : String
  Size : Nat
  Name : String
  MembersMap : Option (List (String × BTFStructMember))
  Members : Option (List BTFStructMember)
deriving Repr, DecidableEq

structure BTFUnion where
  TypeName : String
  Size : Nat
  Name : String
  MembersMap : Option (List (String × BTFStructMember))
  Members : Option (List BTFStructMember)
deriving Repr, DecidableEq

structure BTFEnumValue where
  Name : String
  Value : Nat
deriving Repr, DecidableEq

/-- The exported `BTFEnum`: note that the Go `ValuesMap` field has type
`map[uint64]*BTFEnumValue` — its keys are the numeric enum values. -/
structure BTFEnum where
  TypeName : String
  Name : String
  Size : Nat
  Signed : Bool
  ValuesMap : Option (List (Nat × BTFEnumValue))
  Values : Option (List BTFEnumValue)
deriving Repr, DecidableEq

structure BTFFwd where
  TypeName : String
  Name : String
  Kind : String
deriving Repr, DecidableEq

structure BTFTypeDef where
  TypeName : String
  Name : String
  Type' : Nat
deriving Repr, DecidableEq

structure BTFVolatile where
  TypeName : String
  Type' : Nat
deriving Repr, DecidableEq

structure BTFConst where
  TypeName : String
  Type' : Nat
deriving Repr, DecidableEq

structure BTFRestrict where
  TypeName : String
  Type' : Nat
deriving Repr, DecidableEq

structure BTFFunc where
  TypeName : String
  Name : String
  Type' : Nat
  Linkage : String
deriving Repr, DecidableEq

structure BTFFuncParam where
  Name : String
  Type' : Nat
deriving Repr, DecidableEq

structure BTFFuncProto where
  TypeName : String
  Return : Nat
  Params : List BTFFuncParam
deriving Repr, DecidableEq

structure BTFVar where
  TypeName : String
  Name : String
  Type' : Nat
  Linkage : String
deriving Repr, DecidableEq

structure BTFVarSecInfo where
  Type' : Nat
  Offset : Nat
  Size : Nat
deriving Repr, DecidableEq

structure BTFDatasec where
  TypeName : String
  Name : String
  Size : Nat
  Vars : List BTFVarSecInfo
deriving Repr, DecidableEq

structure BTFFloat where
  TypeName : String
  Name : String
  Size : Nat
deriving Repr, DecidableEq

/-- The `BTFType` interface of `main.go` as a closed tagged variant over the
seventeen exported node shapes. -/
inductive BTFType where
  | void (v : BTFVoid)
  | int (v : BTFInt)
  | pointer (v : BTFPointer)
  | array (v : BTFArray)
  | struct (v : BTFStruct)
  | union (v : BTFUnion)
  | enum (v : BTFEnum)
  | fwd (v : BTFFwd)
  | typedef (v : BTFTypeDef)
  | volatile (v : BTFVolatile)
  | const (v : BTFConst)
  | restrict (v : BTFRestrict)
  | func (v : BTFFunc)
  | funcProto (v : BTFFuncProto)
  | var (v : BTFVar)
  | datasec (v : BTFDatasec)
  | float (v : BTFFloat)
deriving Repr, DecidableEq

/-! ## Go maps as insertion-ordered association lists -/

/-- Go's `m[k] = v`: overwrite the binding in place when the key exists,
append it otherwise. -/
def insertAssoc {κ α : Type} [DecidableEq κ] : List (κ × α) → κ → α → List (κ × α)
  | [], k, v => [(k, v)]
  | (k', v') :: rest, k, v =>
    if k' = k then (k, v) :: rest else (k', v') :: insertAssoc rest k v

/-- Go's `m[k]` / `v, ok := m[k]` lookup. -/
def lookupAssoc {κ α : Type} [DecidableEq κ] : List (κ × α) → κ → Option α
  | [], _ => none
  | (k', v) :: rest, k => if k' = k then some v else lookupAssoc rest k

/-- The list of keys of an association list, in insertion order. -/
def keysList {κ α : Type} (rs : List (κ × α)) : List κ :=
  rs.map Prod.fst

/-! ## Node Converter: the `BTF*Parser` functions of `main.go` -/

def BTFVoidParser : BTFVoid :=
  { TypeName := "void" }

def BTFIntParser (t : SrcInt) : BTFInt :=
  { TypeName := "int", Name := t.Name, Size := t.Size, Encoding := t.Encoding }

def BTFPointerParser (cfg : Config) (store : Store) (t : SrcPointer) : BTFPointer :=
  { TypeName := "pointer", TargetType := GetTypeID cfg store t.Target }

def BTFArrayParser (cfg : Config) (store : Store) (t : SrcArray) : BTFArray :=
  { TypeName := "array"
    IndexType := GetTypeID cfg store t.Index
    ElemType := GetTypeID cfg store t.Type'
    Count := t.Nelems }

/-- The per-member projection built inside the loops of `BTFStructParser`
and `BTFUnionParser`. -/
def buildStructMember (cfg : Config) (store : Store) (m : SrcMember) : BTFStructMember :=
  { Name := m.Name
    Type' := GetTypeID cfg store m.Type'
    Offset := m.OffsetBits / 8
    BitFieldSize := m.BitfieldSize
    Size := SizeofOrZero store (store.length + 1) m.Type' }

/-- The `membersMap` accumulation of the struct/union parser loops:
`membersMap[member.Name] = btfMember`, in declaration order. -/
def buildMembersMap (cfg : Config) (store : Store) (ms : List SrcMember) :
    List (String × BTFStructMember) :=
  ms.foldl (fun acc m => insertAssoc acc m.Name (buildStructMember cfg store m)) []

def BTFStructParser (cfg : Config) (store : Store) (t : SrcStruct) : BTFStruct :=
  if cfg.isAsMap then
    { TypeName := "struct", Size := t.Size, Name := t.Name
      MembersMap := some (buildMembersMap cfg store t.Members)
      Members := none }
  else
    { TypeName := "struct", Size := t.Size, Name := t.Name
      MembersMap := none
      Members := some (t.Members.map (buildStructMember cfg store)) }

def BTFUnionParser (cfg : Config) (store : Store) (t : SrcUnion) : BTFUnion :=
  if cfg.isAsMap then
    { TypeName := "union", Size := t.Size, Name := t.Name
      MembersMap := some (buildMembersMap cfg store t.Members)
      Members := none }
  else
    { TypeName := "union", Size := t.Size, Name := t.Name
      MembersMap := none
      Members := some (t.Members.map (buildStructMember cfg store)) }

/-- The `valuesMap` accumulation of the enum parser loop:
`valuesMap[value.Value] = btfValue` — keyed by the numeric value. -/
def buildValuesMap (vs : List SrcEnumValue) : List (Nat × BTFEnumValue) :=
  vs.foldl (fun acc v => insertAssoc acc v.Value { Name := v.Name, Value := v.Value }) []

def BTFEnumParser (cfg : Config) (t : SrcEnum) : BTFEnum :=
  if cfg.isAsMap then
    { TypeName := "enum", Name := t.Name, Size := t.Size, Signed := t.Signed
      ValuesMap := some (buildValuesMap t.Values)
      Values := none }
  else
    { TypeName := "enum", Name := t.Name, Size := t.Size, Signed := t.Signed
      ValuesMap := none
      Values := some (t.Values.map (fun v => { Name := v.Name, Value := v.Value })) }

def BTFFwdParser (t : SrcFwd) : BTFFwd :=
  { TypeName := "fwd", Name := t.Name, Kind := t.Kind }

def BTFTypeDefParser (cfg : Config) (store : Store) (t : SrcTypedef) : BTFTypeDef :=
  { TypeName := "typedef", Name := t.Name, Type' := GetTypeID cfg store t.Type' }

def BTFVolatileParser (cfg : Config) (store : Store) (t : SrcVolatile) : BTFVolatile :=
  { TypeName := "volatile", Type' := GetTypeID cfg store t.Type' }

def BTFConstParser (cfg : Config) (store : Store) (t : SrcConst) : BTFConst :=
  { TypeName := "const", Type' := GetTypeID cfg store t.Type' }

def BTFRestrictParser (cfg : Config) (store : Store) (t : SrcRestrict) : BTFRestrict :=
  { TypeName := "restrict", Type' := GetTypeID cfg store t.Type' }

def BTFFuncParser (cfg : Config) (store : Store) (t : SrcFunc) : BTFFunc :=
  { TypeName := "func", Name := t.Name, Type' := GetTypeID cfg store t.Type'
    Linkage := t.Linkage }

def BTFFuncProtoParser (cfg : Config) (store : Store) (t : SrcFuncProto) : BTFFuncProto :=
  { TypeName := "funcproto"
    Return := GetTypeID cfg store t.Return
    Params := t.Params.map (fun p => { Name := p.Name, Type' := GetTypeID cfg store p.Type' }) }

def BTFVarParser (cfg : Config) (store : Store) (t : SrcVar) : BTFVar :=
  { TypeName := "var", Name := t.Name, Type' := GetTypeID cfg store t.Type'
    Linkage := t.Linkage }

def BTFDatasecParser (cfg : Config) (store : Store) (t : SrcDatasec) : BTFDatasec :=
  { TypeName := "datasec", Name := t.Name, Size := t.Size
    Vars := t.Vars.map (fun v =>
      { Type' := GetTypeID cfg store v.Type', Offset := v.Offset, Size := v.Size }) }

def BTFFloatParser (t : SrcFloat) : BTFFloat :=
  { TypeName := "float", Name := t.Name, Size := t.Size }

/-- The dispatcher `BTFTypeParser`: the type switch dispatching one store node to its
category's parser.  All seventeen categories the switch handles are covered;
the `panic` default arm is unreachable over the closed variant. -/
def BTFTypeParser (cfg : Config) (store : Store) : TypeNode → BTFType
  | .void => .void BTFVoidParser
  | .int t => .int (BTFIntParser t)
  | .pointer t => .pointer (BTFPointerParser cfg store t)
  | .array t => .array (BTFArrayParser cfg store t)
  | .struct t => .struct (BTFStructParser cfg store t)
  | .union t => .union (BTFUnionParser cfg store t)
  | .enum t => .enum (BTFEnumParser cfg t)
  | .fwd t => .fwd (BTFFwdParser t)
  | .typedef t => .typedef (BTFTypeDefParser cfg store t)
  | .volatile t => .volatile (BTFVolatileParser cfg store t)
  | .const t => .const (BTFConstParser cfg store t)
  | .restrict t => .restrict (BTFRestrictParser cfg store t)
  | .func t => .func (BTFFuncParser cfg store t)
  | .funcProto t => .funcProto (BTFFuncProtoParser cfg store t)
  | .var t => .var (BTFVarParser cfg store t)
  | .datasec t => .datasec (BTFDatasecParser cfg store t)
  | .float t => .float (BTFFloatParser t)

/-! ## Dependency Extractor: the `GetDependencies` methods -/

def BTFVoid.GetDependencies (_v : BTFVoid) : List Nat := []

def BTFInt.GetDependencies (_v : BTFInt) : List Nat := []

def BTFPointer.GetDependencies (v : BTFPointer) : List Nat := [v.TargetType]

/-- The method `BTFArray.GetDependencies` of `main.go`: it returns the index type ID
twice and does not return the element type ID. -/
def BTFArray.GetDependencies (v : BTFArray) : List Nat := [v.IndexType, v.IndexType]

/-- The method `BTFStruct.GetDependencies`: one dependency per member of
whichever shape the as-map flag selects; iterating the nil shape yields
nothing.  In the as-map branch the source ranges over a Go map, whose
iteration order is unspecified and randomized per range statement; this
definition is the determinization that fixes one admissible order — the
map's insertion order — which is sound for every result that depends on the
dependency list only through membership or multiset (the traversal
theorems).  The order-faithful model of the range statement, with the
iteration order as an explicit parameter, is
`BTFStruct.GetDependenciesRange` below. -/
def BTFStruct.GetDependencies (cfg : Config) (v : BTFStruct) : List Nat :=
  if cfg.isAsMap then (v.MembersMap.getD []).map (fun p => p.2.Type')
  else (v.Members.getD []).map (fun m => m.Type')

/-- The method `BTFUnion.GetDependencies`: the same determinization of the
Go map range as `BTFStruct.GetDependencies` (the source bodies are
identical); the order-faithful model is `BTFUnion.GetDependenciesRange`. -/
def BTFUnion.GetDependencies (cfg : Config) (v : BTFUnion) : List Nat :=
  if cfg.isAsMap then (v.MembersMap.getD []).map (fun p => p.2.Type')
  else (v.Members.getD []).map (fun m => m.Type')

/-- One invocation of `BTFStruct.GetDependencies` with the Go map range's
iteration order made explicit: a `range` statement over a map visits each
entry exactly once in an unspecified, possibly different order on each
invocation, so an invocation is modelled by a parameter `order` that an
admissibility hypothesis (in the theorems) constrains to be a permutation
of the map's entries.  Slice iteration (the list shape, flag unset) is
deterministic and ignores the parameter. -/
def BTFStruct.GetDependenciesRange (cfg : Config) (v : BTFStruct)
    (order : List (String × BTFStructMember)) : List Nat :=
  if cfg.isAsMap then order.map (fun p => p.2.Type')
  else (v.Members.getD []).map (fun m => m.Type')

/-- One invocation of `BTFUnion.GetDependencies` with the Go map range's
iteration order made explicit, exactly as for struct nodes. -/
def BTFUnion.GetDependenciesRange (cfg : Config) (v : BTFUnion)
    (order : List (String × BTFStructMember)) : List Nat :=
  if cfg.isAsMap then order.map (fun p => p.2.Type')
  else (v.Members.getD []).map (fun m => m.Type')

def BTFEnum.GetDependencies (_v : BTFEnum) : List Nat := []

def BTFFwd.GetDependencies (_v : BTFFwd) : List Nat := []

def BTFTypeDef.GetDependencies (v : BTFTypeDef) : List Nat := [v.Type']

def BTFVolatile.GetDependencies (v : BTFVolatile) : List Nat := [v.Type']

def BTFConst.GetDependencies (v : BTFConst) : List Nat := [v.Type']

def BTFRestrict.GetDependencies (v : BTFRestrict) : List Nat := [v.Type']

def BTFFunc.GetDependencies (v : BTFFunc) : List Nat := [v.Type']

def BTFFuncProto.GetDependencies (v : BTFFuncProto) : List Nat :=
  v.Return :: v.Params.map (fun p => p.Type')

def BTFVar.GetDependencies (v : BTFVar) : List Nat := [v.Type']

def BTFDatasec.GetDependencies (v : BTFDatasec) : List Nat :=
  v.Vars.map (fun i => i.Type')

def BTFFloat.GetDependencies (_v : BTFFloat) : List Nat := []

/-- Dynamic dispatch of `GetDependencies` over the interface. -/
def GetDependencies (cfg : Config) : BTFType → List Nat
  | .void v => v.GetDependencies
  | .int v => v.GetDependencies
  | .pointer v => v.GetDependencies
  | .array v => v.GetDependencies
  | .struct v => v.GetDependencies cfg
  | .union v => v.GetDependencies cfg
  | .enum v => v.GetDependencies
  | .fwd v => v.GetDependencies
  | .typedef v => v.GetDependencies
  | .volatile v => v.GetDependencies
  | .const v => v.GetDependencies
  | .restrict v => v.GetDependencies
  | .func v => v.GetDependencies
  | .funcProto v => v.GetDependencies
  | .var v => v.GetDependencies
  | .datasec v => v.GetDependencies
  | .float v => v.GetDependencies

/-! ## Root Resolver -/

/-- The whitespace test of `strings.TrimSpace`, restricted to the ASCII
whitespace characters. -/
def isSpaceChar (c : Char) : Bool :=
  c = ' ' || c = '\t' || c = '\n' || c = '\r'

/-- The model of `strings.TrimSpace`: drop leading and trailing whitespace. -/
def TrimSpace (s : String) : String :=
  String.mk (((s.data.dropWhile isSpaceChar).reverse.dropWhile isSpaceChar).reverse)

/-- The function `NameToBTFType` of `main.go`: map a category token to a zero-valued node
of that category, used as the lookup key shape.  The switch has sixteen
cases; `panic` on any other token is modelled as `none`.  Note there is no
`"const"` case, and the data-section and float tokens are the capitalized
`"Datasec"` and `"Float"`. -/
def NameToBTFType (name : String) : Option TypeNode :=
  match TrimSpace name with
  | "void" => some .void
  | "int" => some (.int { Name := "", Size := 0, Encoding := "" })
  | "pointer" => some (.pointer { Target := 0 })
  | "array" => some (.array { Index := 0, Type' := 0, Nelems := 0 })
  | "struct" => some (.struct { Name := "", Size := 0, Members := [] })
  | "union" => some (.union { Name := "", Size := 0, Members := [] })
  | "enum" => some (.enum { Name := "", Size := 0, Signed := false, Values := [] })
  | "fwd" => some (.fwd { Name := "", Kind := "" })
  | "typedef" => some (.typedef { Name := "", Type' := 0 })
  | "volatile" => some (.volatile { Type' := 0 })
  | "restrict" => some (.restrict { Type' := 0 })
  | "func" => some (.func { Name := "", Type' := 0, Linkage := "" })
  | "funcproto" => some (.funcProto { Return := 0, Params := [] })
  | "var" => some (.var { Name := "", Type' := 0, Linkage := "" })
  | "Datasec" => some (.datasec { Name := "", Size := 0, Vars := [] })
  | "Float" => some (.float { Name := "", Size := 0 })
  | _ => none

/-- Modelled from the spec: the Type Store's find-by-category-and-name
lookup (`reader.TypeByName` with a typed out-parameter), returning the ID of
the first store node whose category matches the key shape and whose declared
name matches, or `none` (a NotFound panic) when no node matches. -/
def TypeByName (store : Store) (kind : TypeNode) (name : String) : Option Nat :=
  store.findIdx? (fun t => sameKind t kind && nodeName t == name)

/-- Modelled from the spec: the Type Store's find-by-name-across-all-
categories lookup (`reader.AnyTypeByName`), returning the ID of the first
store node with that declared name. -/
def AnyTypeByName (store : Store) (name : String) : Option Nat :=
  store.findIdx? (fun t => nodeName t == name)

/-- The recursion behind `cutColon`: split a character list at its first
colon. -/
def cutColonChars : List Char → Option (List Char × List Char)
  | [] => none
  | c :: rest =>
    if c = ':' then some ([], rest)
    else (cutColonChars rest).map (fun p => (c :: p.1, p.2))

/-- The model of `strings.Cut(name, ":")`: the text before and after the first colon, or
`none` when the string has no colon. -/
def cutColon (s : String) : Option (String × String) :=
  (cutColonChars s.data).map (fun p => (String.mk p.1, String.mk p.2))

/-- Root resolution for one target specification, as in the first loop of
`WalkForTargetTypes`: trim, split as `category:name` or bare name, and look
the root up in the store.  `none` models the panics (bad category or lookup
failure).  The dereference flag is never consulted here: the matched node's
own ID is returned. -/
def resolveTarget (store : Store) (spec : String) : Option Nat :=
  let name := TrimSpace spec
  match cutColon name with
  | some (a, b) =>
    match NameToBTFType a with
    | some kind => TypeByName store kind b
    | none => none
  | none => AnyTypeByName store name

/-- Resolution of the whole target list into the initial worklist, in order;
any single failure aborts the run. -/
def resolveRoots (store : Store) (targets : List String) : Option (List Nat) :=
  targets.mapM (resolveTarget store)

/-! ## Traversal Engine (closure mode) -/

/-- Outcome of the closure walk: the result mapping, or the fatal panic the
source raises when a popped ID has no store node. -/
inductive WalkResult where
  | ok (results : List (Nat × BTFType))
  | panicked
deriving Repr, DecidableEq

/-- The worklist loop of `WalkForTargetTypes` (lines 129–142 of `main.go`),
translated faithfully: pop the front ID, convert the node it denotes
(without checking whether the ID is already a key of the result mapping),
insert the conversion under the ID, and append every dependency that is not
yet a key.  Fuel makes the recursion structural; `none` means the fuel ran
out, never that the program failed. -/
def walkLoop (cfg : Config) (store : Store) :
    Nat → List Nat → List (Nat × BTFType) → Option WalkResult
  | _, [], results => some (.ok results)
  | 0, _ :: _, _ => none
  | fuel + 1, i :: rest, results =>
    match store[i]? with
    | none => some .panicked
    | some t =>
      let convertedType := BTFTypeParser cfg store t
      let results2 := insertAssoc results i convertedType
      let deps := GetDependencies cfg convertedType
      walkLoop cfg store fuel
        (rest ++ deps.filter (fun dep => (lookupAssoc results2 dep).isNone))
        results2

/-- The function `WalkForTargetTypes`: resolve the targets into the initial worklist,
then run the closure walk from an empty result mapping. -/
def WalkForTargetTypes (cfg : Config) (store : Store) (fuel : Nat)
    (targets : List String) : Option WalkResult :=
  match resolveRoots store targets with
  | none => some .panicked
  | some roots => walkLoop cfg store fuel roots []

/-! ## Instrumented traversal: the Node-Converter invocation counter the
specification's testable properties call for.  It is the same loop as
`walkLoop`, additionally counting, per ID, how many times the Node Converter
is invoked on it. -/

/-- How many conversions the counter has recorded for an ID. -/
def countOf (counts : List (Nat × Nat)) (i : Nat) : Nat :=
  (lookupAssoc counts i).getD 0

/-- The worklist loop with a per-ID Node-Converter invocation counter.
`none` covers both fuel exhaustion and the store-lookup panic. -/
def walkLoopCounted (cfg : Config) (store : Store) :
    Nat → List Nat → List (Nat × BTFType) → List (Nat × Nat) →
    Option (List (Nat × BTFType) × List (Nat × Nat))
  | _, [], results, counts => some (results, counts)
  | 0, _ :: _, _, _ => none
  | fuel + 1, i :: rest, results, counts =>
    match store[i]? with
    | none => none
    | some t =>
      let convertedType := BTFTypeParser cfg store t
      let counts2 := insertAssoc counts i (countOf counts i + 1)
      let results2 := insertAssoc results i convertedType
      let deps := GetDependencies cfg convertedType
      walkLoopCounted cfg store fuel
        (rest ++ deps.filter (fun dep => (lookupAssoc results2 dep).isNone))
        results2 counts2

/-- The full closure pipeline with the invocation counter. -/
def WalkForTargetTypesCounted (cfg : Config) (store : Store) (fuel : Nat)
    (targets : List String) : Option (List (Nat × BTFType) × List (Nat × Nat)) :=
  match resolveRoots store targets with
  | none => none
  | some roots => walkLoopCounted cfg store fuel roots [] []

/-! ## Association-list lemmas -/

/-- The key set of an association list. -/
def keysFinset {κ α : Type} [DecidableEq κ] (rs : List (κ × α)) : Finset κ :=
  (keysList rs).toFinset

theorem keysList_insertAssoc {κ α : Type} [DecidableEq κ] (rs : List (κ × α)) (k : κ) (v : α) :
    keysList (insertAssoc rs k v) =
      if k ∈ keysList rs then keysList rs else keysList rs ++ [k] := by
  induction rs with
  | nil => simp [insertAssoc, keysList]
  | cons p rest ih =>
    obtain ⟨k', v'⟩ := p
    by_cases h : k' = k
    · subst h
      simp [insertAssoc, keysList]
    · simp only [insertAssoc, if_neg h, keysList, List.map_cons, List.mem_cons]
      simp only [keysList] at ih
      rw [ih]
      by_cases hm : k ∈ List.map Prod.fst rest
      · simp [hm]
      · have hkk : ¬ k = k' := fun he => h he.symm
        simp [hm, hkk]

theorem keysFinset_insertAssoc {κ α : Type} [DecidableEq κ] (rs : List (κ × α)) (k : κ) (v : α) :
    keysFinset (insertAssoc rs k v) = insert k (keysFinset rs) := by
  unfold keysFinset
  rw [keysList_insertAssoc]
  by_cases h : k ∈ keysList rs
  · rw [if_pos h]
    have : k ∈ (keysList rs).toFinset := List.mem_toFinset.mpr h
    rw [Finset.insert_eq_self.mpr this]
  · rw [if_neg h]
    ext x
    simp [List.mem_toFinset, or_comm]

theorem length_insertAssoc {κ α : Type} [DecidableEq κ] (rs : List (κ × α)) (k : κ) (v : α) :
    (insertAssoc rs k v).length =
      if k ∈ keysList rs then rs.length else rs.length + 1 := by
  induction rs with
  | nil => simp [insertAssoc, keysList]
  | cons p rest ih =>
    obtain ⟨k', v'⟩ := p
    by_cases h : k' = k
    · subst h
      simp [insertAssoc, keysList]
    · simp only [insertAssoc, if_neg h, List.length_cons, keysList, List.map_cons,
        List.mem_cons]
      simp only [keysList] at ih
      rw [ih]
      by_cases hm : k ∈ List.map Prod.fst rest
      · simp [hm]
      · have hkk : ¬ k = k' := fun he => h he.symm
        simp [hm, hkk]

theorem nodupKeys_insertAssoc {κ α : Type} [DecidableEq κ] (rs : List (κ × α)) (k : κ) (v : α)
    (h : (keysList rs).Nodup) : (keysList (insertAssoc rs k v)).Nodup := by
  rw [keysList_insertAssoc]
  by_cases hm : k ∈ keysList rs
  · rwa [if_pos hm]
  · rw [if_neg hm]
    simpa using List.Nodup.append h (List.nodup_singleton k) (by simpa using hm)

theorem lookupAssoc_eq_none_iff {κ α : Type} [DecidableEq κ] (rs : List (κ × α)) (k : κ) :
    lookupAssoc rs k = none ↔ k ∉ keysList rs := by
  induction rs with
  | nil => simp [lookupAssoc, keysList]
  | cons p rest ih =>
    obtain ⟨k', v'⟩ := p
    by_cases h : k' = k
    · subst h
      simp [lookupAssoc, keysList]
    · simp [lookupAssoc, h, keysList, ih, Ne.symm h]

theorem lookupAssoc_insertAssoc_self {κ α : Type} [DecidableEq κ]
    (rs : List (κ × α)) (k : κ) (v : α) :
    lookupAssoc (insertAssoc rs k v) k = some v := by
  induction rs with
  | nil => simp [insertAssoc, lookupAssoc]
  | cons p rest ih =>
    obtain ⟨k', v'⟩ := p
    by_cases h : k' = k
    · subst h
      simp [insertAssoc, lookupAssoc]
    · simp [insertAssoc, h, lookupAssoc, ih]

theorem lookupAssoc_insertAssoc_ne {κ α : Type} [DecidableEq κ]
    (rs : List (κ × α)) (k k' : κ) (v : α) (h : k' ≠ k) :
    lookupAssoc (insertAssoc rs k v) k' = lookupAssoc rs k' := by
  induction rs with
  | nil => simp [insertAssoc, lookupAssoc, Ne.symm h]
  | cons p rest ih =>
    obtain ⟨k₀, v₀⟩ := p
    by_cases h0 : k₀ = k
    · subst h0
      simp [insertAssoc, lookupAssoc, h, Ne.symm h]
    · by_cases h1 : k₀ = k'
      · subst h1
        simp [insertAssoc, h0, lookupAssoc]
      · simp [insertAssoc, h0, lookupAssoc, h1, ih]

theorem lookupAssoc_isNone_iff {κ α : Type} [DecidableEq κ] (rs : List (κ × α)) (k : κ) :
    (lookupAssoc rs k).isNone = true ↔ k ∉ keysFinset rs := by
  rw [Option.isNone_iff_eq_none, lookupAssoc_eq_none_iff]
  unfold keysFinset
  rw [List.mem_toFinset]

/-- A generic description of the Go-map accumulation loops used by the
struct/union/enum parsers: fold a list into an association list, keyed and
valued by projections of the elements. -/
def foldInsert {β κ α : Type} [DecidableEq κ] (key : β → κ) (val : β → α)
    (acc : List (κ × α)) (bs : List β) : List (κ × α) :=
  bs.foldl (fun a b => insertAssoc a (key b) (val b)) acc

theorem lookupAssoc_foldInsert {β κ α : Type} [DecidableEq κ] (key : β → κ) (val : β → α)
    (n : κ) : ∀ (bs : List β) (acc : List (κ × α)),
    lookupAssoc (foldInsert key val acc bs) n =
      ((bs.reverse.find? (fun b => decide (key b = n))).map val).or (lookupAssoc acc n) := by
  intro bs
  induction bs with
  | nil => simp [foldInsert]
  | cons b0 rest ih =>
    intro acc
    have step : foldInsert key val acc (b0 :: rest) =
        foldInsert key val (insertAssoc acc (key b0) (val b0)) rest := rfl
    rw [step, ih]
    rw [List.reverse_cons, List.find?_append]
    cases hf : rest.reverse.find? (fun b => decide (key b = n)) with
    | some b => simp [Option.or]
    | none =>
      simp only [Option.or, Option.map]
      by_cases hk : key b0 = n
      · subst hk
        simp [List.find?, lookupAssoc_insertAssoc_self]
      · have : (List.find? (fun b => decide (key b = n)) [b0]) = none := by
          simp [List.find?, hk]
        rw [this]
        simp only []
        exact lookupAssoc_insertAssoc_ne acc (key b0) n (val b0) (fun h => hk h.symm)

theorem keysFinset_foldInsert {β κ α : Type} [DecidableEq κ] (key : β → κ) (val : β → α) :
    ∀ (bs : List β) (acc : List (κ × α)),
    keysFinset (foldInsert key val acc bs) = keysFinset acc ∪ (bs.map key).toFinset := by
  intro bs
  induction bs with
  | nil => simp [foldInsert]
  | cons b0 rest ih =>
    intro acc
    have step : foldInsert key val acc (b0 :: rest) =
        foldInsert key val (insertAssoc acc (key b0) (val b0)) rest := rfl
    rw [step, ih, keysFinset_insertAssoc]
    rw [List.map_cons, List.toFinset_cons]
    rw [Finset.insert_union, Finset.union_insert]

theorem nodupKeys_foldInsert {β κ α : Type} [DecidableEq κ] (key : β → κ) (val : β → α) :
    ∀ (bs : List β) (acc : List (κ × α)),
    (keysList acc).Nodup → (keysList (foldInsert key val acc bs)).Nodup := by
  intro bs
  induction bs with
  | nil => intro acc h; simpa [foldInsert] using h
  | cons b0 rest ih =>
    intro acc h
    exact ih _ (nodupKeys_insertAssoc acc (key b0) (val b0) h)

theorem length_eq_card_keysFinset {κ α : Type} [DecidableEq κ] (rs : List (κ × α))
    (h : (keysList rs).Nodup) : rs.length = (keysFinset rs).card := by
  unfold keysFinset
  rw [List.toFinset_card_of_nodup h]
  simp [keysList]

theorem dedup_length_lt_of_not_nodup {κ : Type} [DecidableEq κ] {l : List κ}
    (h : ¬ l.Nodup) : l.dedup.length < l.length := by
  rcases Nat.lt_or_ge l.dedup.length l.length with hlt | hge
  · exact hlt
  · exfalso
    have hle := List.Sublist.length_le (List.dedup_sublist l)
    have heq : l.dedup.length = l.length := Nat.le_antisymm hle hge
    have := List.Sublist.eq_of_length (List.dedup_sublist l) heq
    exact h (this ▸ List.nodup_dedup l)

theorem length_foldInsert_lt_of_dup {β κ α : Type} [DecidableEq κ]
    (key : β → κ) (val : β → α) (bs : List β) (h : ¬ (bs.map key).Nodup) :
    (foldInsert key val [] bs).length < bs.length := by
  have hnodup : (keysList (foldInsert key val ([] : List (κ × α)) bs)).Nodup :=
    nodupKeys_foldInsert key val bs [] (by simp [keysList])
  rw [length_eq_card_keysFinset _ hnodup, keysFinset_foldInsert]
  have : keysFinset ([] : List (κ × α)) = ∅ := rfl
  rw [this, Finset.empty_union, List.card_toFinset]
  calc (bs.map key).dedup.length < (bs.map key).length :=
        dedup_length_lt_of_not_nodup h
    _ = bs.length := List.length_map bs key

/-! ## The dependency closure as a least closed set -/

/-- A set of IDs is closed under dependencies: for every member k whose
store node exists, every ID in the Dependency Set of the converted node for
k is also a member. -/
def DepsClosed (cfg : Config) (store : Store) (S : Set Nat) : Prop :=
  ∀ k ∈ S, ∀ t, store[k]? = some t →
    ∀ d ∈ GetDependencies cfg (BTFTypeParser cfg store t), d ∈ S

/-- The smallest set containing the roots that is closed under
dependencies — the specification's characterisation of the closure-mode key
set. -/
structure IsLeastClosed (cfg : Config) (store : Store) (roots : List Nat)
    (S : Set Nat) : Prop where
  roots_mem : ∀ i ∈ roots, i ∈ S
  closed : DepsClosed cfg store S
  least : ∀ S' : Set Nat, (∀ i ∈ roots, i ∈ S') → DepsClosed cfg store S' →
    ∀ i ∈ S, i ∈ S'

/-- Reachability from the roots through converted-node dependencies. -/
inductive Reaches (cfg : Config) (store : Store) (roots : List Nat) : Nat → Prop where
  | root {i : Nat} : i ∈ roots → Reaches cfg store roots i
  | step {i d : Nat} {t : TypeNode} : Reaches cfg store roots i →
      store[i]? = some t →
      d ∈ GetDependencies cfg (BTFTypeParser cfg store t) →
      Reaches cfg store roots d

theorem reaches_mono {cfg : Config} {store : Store} {roots roots' : List Nat}
    (h : ∀ s ∈ roots', Reaches cfg store roots s) {x : Nat} :
    Reaches cfg store roots' x → Reaches cfg store roots x := by
  intro hx
  induction hx with
  | root hi => exact h _ hi
  | step _ ht hd ih => exact .step ih ht hd

theorem reaches_iff_mem_least {cfg : Config} {store : Store} {roots : List Nat}
    {S : Set Nat} (hS : IsLeastClosed cfg store roots S) :
    ∀ i, Reaches cfg store roots i ↔ i ∈ S := by
  intro i
  constructor
  · intro h
    induction h with
    | root hi => exact hS.roots_mem _ hi
    | step _ ht hd ih => exact hS.closed _ ih _ ht _ hd
  · intro hi
    exact hS.least (fun j => Reaches cfg store roots j)
      (fun j hj => .root hj)
      (fun k hk t ht d hd => .step hk ht hd) i hi

/-! ## Correctness of the closure walk -/

theorem walkLoop_keys_superset {cfg : Config} {store : Store} :
    ∀ (fuel : Nat) (q : List Nat) (res r : List (Nat × BTFType)),
    walkLoop cfg store fuel q res = some (.ok r) →
    (∀ i ∈ q, i ∈ keysFinset r) ∧ (∀ i ∈ keysFinset res, i ∈ keysFinset r) := by
  intro fuel
  induction fuel with
  | zero =>
    intro q res r h
    cases q with
    | nil =>
      cases h
      exact ⟨by simp, fun i hi => hi⟩
    | cons i rest => exact absurd h (by simp [walkLoop])
  | succ fuel ih =>
    intro q res r h
    cases q with
    | nil =>
      cases h
      exact ⟨by simp, fun i hi => hi⟩
    | cons i rest =>
      rw [walkLoop] at h
      cases hstore : store[i]? with
      | none => rw [hstore] at h; cases h
      | some t =>
        rw [hstore] at h
        simp only [] at h
        obtain ⟨hq, hres⟩ := ih _ _ _ h
        have hins : ∀ j ∈ keysFinset (insertAssoc res i (BTFTypeParser cfg store t)),
            j ∈ keysFinset r := hres
        have hi_mem : i ∈ keysFinset r := by
          apply hins
          rw [keysFinset_insertAssoc]
          exact Finset.mem_insert_self i _
        refine ⟨?_, ?_⟩
        · intro j hj
          rcases List.mem_cons.mp hj with rfl | hjr
          · exact hi_mem
          · exact hq j (List.mem_append_left _ hjr)
        · intro j hj
          apply hins
          rw [keysFinset_insertAssoc]
          exact Finset.mem_insert_of_mem hj

theorem walkLoop_keys_closed {cfg : Config} {store : Store} :
    ∀ (fuel : Nat) (q : List Nat) (res r : List (Nat × BTFType)),
    walkLoop cfg store fuel q res = some (.ok r) →
    (∀ j ∈ keysFinset res, ∀ t, store[j]? = some t →
      ∀ d ∈ GetDependencies cfg (BTFTypeParser cfg store t),
        d ∈ keysFinset res ∨ d ∈ q) →
    ∀ j ∈ keysFinset r, ∀ t, store[j]? = some t →
      ∀ d ∈ GetDependencies cfg (BTFTypeParser cfg store t), d ∈ keysFinset r := by
  intro fuel
  induction fuel with
  | zero =>
    intro q res r h hinv
    cases q with
    | nil =>
      cases h
      intro j hj t ht d hd
      rcases hinv j hj t ht d hd with hk | hq
      · exact hk
      · exact absurd hq (List.not_mem_nil d)
    | cons i rest => exact absurd h (by simp [walkLoop])
  | succ fuel ih =>
    intro q res r h hinv
    cases q with
    | nil =>
      cases h
      intro j hj t ht d hd
      rcases hinv j hj t ht d hd with hk | hq
      · exact hk
      · exact absurd hq (List.not_mem_nil d)
    | cons i rest =>
      rw [walkLoop] at h
      cases hstore : store[i]? with
      | none => rw [hstore] at h; cases h
      | some t0 =>
        rw [hstore] at h
        simp only [] at h
        apply ih _ _ _ h
        intro j hj t ht d hd
        rw [keysFinset_insertAssoc] at hj
        rcases Finset.mem_insert.mp hj with rfl | hjres
        · -- the freshly converted ID
          have ht0 : t = t0 := by
            rw [ht] at hstore
            exact Option.some.inj hstore
          subst ht0
          by_cases hdk : d ∈ keysFinset (insertAssoc res j (BTFTypeParser cfg store t))
          · exact Or.inl hdk
          · refine Or.inr (List.mem_append_right _ ?_)
            rw [List.mem_filter]
            refine ⟨hd, ?_⟩
            rw [lookupAssoc_isNone_iff]
            exact hdk
        · -- an ID already converted before this step
          rcases hinv j hjres t ht d hd with hk | hq
          · exact Or.inl (by rw [keysFinset_insertAssoc]; exact Finset.mem_insert_of_mem hk)
          · rcases List.mem_cons.mp hq with rfl | hdrest
            · exact Or.inl (by rw [keysFinset_insertAssoc]; exact Finset.mem_insert_self d _)
            · exact Or.inr (List.mem_append_left _ hdrest)

theorem walkLoop_keys_sound {cfg : Config} {store : Store} :
    ∀ (fuel : Nat) (q : List Nat) (res r : List (Nat × BTFType)),
    walkLoop cfg store fuel q res = some (.ok r) →
    ∀ i ∈ keysFinset r, i ∈ keysFinset res ∨ Reaches cfg store q i := by
  intro fuel
  induction fuel with
  | zero =>
    intro q res r h i hi
    cases q with
    | nil => cases h; exact Or.inl hi
    | cons j rest => exact absurd h (by simp [walkLoop])
  | succ fuel ih =>
    intro q res r h i hi
    cases q with
    | nil => cases h; exact Or.inl hi
    | cons j rest =>
      rw [walkLoop] at h
      cases hstore : store[j]? with
      | none => rw [hstore] at h; cases h
      | some t =>
        rw [hstore] at h
        simp only [] at h
        rcases ih _ _ _ h i hi with hk | hreach
        · rw [keysFinset_insertAssoc] at hk
          rcases Finset.mem_insert.mp hk with rfl | hkres
          · exact Or.inr (.root (List.mem_cons_self i rest))
          · exact Or.inl hkres
        · refine Or.inr (reaches_mono ?_ hreach)
          intro s hs
          rcases List.mem_append.mp hs with hsr | hsd
          · exact .root (List.mem_cons_of_mem j hsr)
          · have := (List.mem_filter.mp hsd).1
            exact .step (.root (List.mem_cons_self j rest)) hstore this

theorem walkLoop_keys_eq_reaches {cfg : Config} {store : Store}
    {fuel : Nat} {roots : List Nat} {r : List (Nat × BTFType)}
    (h : walkLoop cfg store fuel roots [] = some (.ok r)) :
    ∀ i, i ∈ keysFinset r ↔ Reaches cfg store roots i := by
  intro i
  constructor
  · intro hi
    rcases walkLoop_keys_sound fuel roots [] r h i hi with hk | hreach
    · exact absurd hk (by simp [keysFinset, keysList])
    · exact hreach
  · intro hreach
    induction hreach with
    | root hi => exact (walkLoop_keys_superset fuel roots [] r h).1 _ hi
    | step _ ht hd ihj =>
      exact walkLoop_keys_closed fuel roots [] r h
        (by intro j hj; exact absurd hj (by simp [keysFinset, keysList]))
        _ ihj _ ht _ hd

/-! ## Termination of the closure walk

The loop terminates because each iteration either converts an ID that was
not yet a key of the result mapping (shrinking the set of store IDs not yet
converted) or re-converts an already-present ID (consuming one of the
finitely many already-converted occurrences in the worklist while every
newly enqueued ID is not yet converted). -/

/-- The number of store IDs that are not yet keys of the result mapping. -/
def walkMeasure1 (store : Store) (res : List (Nat × BTFType)) : Nat :=
  (Finset.range store.length \ keysFinset res).card

/-- The number of worklist occurrences that are already keys of the result
mapping. -/
def walkMeasure2 (res : List (Nat × BTFType)) (q : List Nat) : Nat :=
  (q.filter (fun i => decide (i ∈ keysFinset res))).length

theorem walkLoop_terminates (cfg : Config) (store : Store) :
    ∀ (a b : Nat) (q : List Nat) (res : List (Nat × BTFType)),
    walkMeasure1 store res = a → walkMeasure2 res q = b →
    ∃ fuel w, walkLoop cfg store fuel q res = some w := by
  intro a
  induction a using Nat.strong_induction_on with
  | _ a ihA =>
  intro b
  induction b using Nat.strong_induction_on with
  | _ b ihB =>
  intro q res h1 h2
  cases q with
  | nil => exact ⟨0, .ok res, rfl⟩
  | cons i rest =>
    cases hstore : store[i]? with
    | none =>
      refine ⟨1, .panicked, ?_⟩
      rw [walkLoop, hstore]
    | some t =>
      by_cases hik : i ∈ keysFinset res
      · -- re-conversion of an already-present key
        have hkeys : keysFinset (insertAssoc res i (BTFTypeParser cfg store t)) =
            keysFinset res := by
          rw [keysFinset_insertAssoc, Finset.insert_eq_self.mpr hik]
        have hfilter : ((GetDependencies cfg (BTFTypeParser cfg store t)).filter
            (fun dep => (lookupAssoc (insertAssoc res i (BTFTypeParser cfg store t)) dep).isNone)).filter
            (fun j => decide (j ∈ keysFinset (insertAssoc res i (BTFTypeParser cfg store t)))) = [] := by
          rw [List.filter_eq_nil_iff]
          intro d hd
          have hnone := (List.mem_filter.mp hd).2
          have : d ∉ keysFinset (insertAssoc res i (BTFTypeParser cfg store t)) :=
            (lookupAssoc_isNone_iff _ _).mp hnone
          simp [this]
        have hm2 : walkMeasure2 (insertAssoc res i (BTFTypeParser cfg store t))
            (rest ++ (GetDependencies cfg (BTFTypeParser cfg store t)).filter
              (fun dep => (lookupAssoc (insertAssoc res i (BTFTypeParser cfg store t)) dep).isNone)) < b := by
          rw [← h2]
          unfold walkMeasure2
          rw [List.filter_append, hfilter, List.append_nil]
          simp only [hkeys]
          have hcons : List.filter (fun j => decide (j ∈ keysFinset res)) (i :: rest) =
              i :: List.filter (fun j => decide (j ∈ keysFinset res)) rest := by
            rw [List.filter_cons_of_pos]
            simp [hik]
          rw [hcons, List.length_cons]
          exact Nat.lt_succ_self _
        have hm1 : walkMeasure1 store (insertAssoc res i (BTFTypeParser cfg store t)) = a := by
          rw [← h1]
          unfold walkMeasure1
          rw [hkeys]
        obtain ⟨fuel, w, hw⟩ := ihB _ hm2 _ _ hm1 rfl
        refine ⟨fuel + 1, w, ?_⟩
        rw [walkLoop, hstore]
        exact hw
      · -- conversion of a new key
        have hlt : i < store.length := (List.getElem?_eq_some.mp hstore).1
        have hm1 : walkMeasure1 store (insertAssoc res i (BTFTypeParser cfg store t)) < a := by
          rw [← h1]
          unfold walkMeasure1
          rw [keysFinset_insertAssoc, Finset.sdiff_insert]
          have hmem : i ∈ Finset.range store.length \ keysFinset res :=
            Finset.mem_sdiff.mpr ⟨Finset.mem_range.mpr hlt, hik⟩
          rw [Finset.card_erase_of_mem hmem]
          exact Nat.sub_lt (Finset.card_pos.mpr ⟨i, hmem⟩) Nat.one_pos
        obtain ⟨fuel, w, hw⟩ := ihA _ hm1 _ _ _ rfl rfl
        refine ⟨fuel + 1, w, ?_⟩
        rw [walkLoop, hstore]
        exact hw

/-! ## Lookup index specification -/

theorem findIdxAux_spec {α : Type} (p : α → Bool) :
    ∀ (l : List α) (s i : Nat), List.findIdx? p l s = some i →
    s ≤ i ∧ ∃ x, l[i - s]? = some x ∧ p x = true := by
  intro l
  induction l with
  | nil => intro s i h; rw [List.findIdx?_nil] at h; cases h
  | cons x xs ih =>
    intro s i h
    rw [List.findIdx?_cons] at h
    by_cases hp : p x = true
    · rw [if_pos hp] at h
      have : s = i := Option.some.inj h
      subst this
      exact ⟨Nat.le_refl s, x, by simp, hp⟩
    · rw [if_neg hp] at h
      obtain ⟨hle, y, hy, hpy⟩ := ih (s + 1) i h
      refine ⟨Nat.le_of_succ_le hle, y, ?_, hpy⟩
      have harith : i - s = (i - (s + 1)) + 1 := by omega
      rw [harith]
      simpa using hy

theorem findIdx?_spec {α : Type} (p : α → Bool) (l : List α) (i : Nat)
    (h : l.findIdx? p = some i) : ∃ x, l[i]? = some x ∧ p x = true := by
  obtain ⟨_, x, hx, hp⟩ := findIdxAux_spec p l 0 i h
  exact ⟨x, by simpa using hx, hp⟩

/-! ## Wrapper-chain stripping -/

theorem wrapperInner_eq_none {t : TypeNode} (h : isWrapper t = false) :
    wrapperInner t = none := by
  cases t <;> simp_all [isWrapper, wrapperInner]

/-- A witness that repeatedly stripping qualifier/typedef wrappers starting
at ID `i` reaches the non-wrapper node at ID `j` after `n` steps. -/
inductive StripChain (store : Store) : Nat → Nat → Nat → Prop where
  | done {i : Nat} {t : TypeNode} : store[i]? = some t → isWrapper t = false →
      StripChain store i i 0
  | cons {i k j n : Nat} {t : TypeNode} : store[i]? = some t →
      wrapperInner t = some k → StripChain store k j n →
      StripChain store i j (n + 1)

theorem UnderlyingType_of_chain {store : Store} :
    ∀ {n i j : Nat}, StripChain store i j n → ∀ fuel, n < fuel →
    UnderlyingType store fuel i = j := by
  intro n
  induction n with
  | zero =>
    intro i j h fuel hf
    cases h with
    | done ht hw =>
      cases fuel with
      | zero => exact absurd hf (Nat.lt_irrefl 0)
      | succ fuel => simp [UnderlyingType, ht, wrapperInner_eq_none hw]
  | succ n ih =>
    intro i j h fuel hf
    cases h with
    | cons ht hwi hrest =>
      cases fuel with
      | zero => exact absurd hf (Nat.not_lt_zero _)
      | succ fuel =>
        simp only [UnderlyingType, ht, hwi]
        exact ih hrest fuel (Nat.lt_of_succ_lt_succ hf)

/-! ## The invocation counter is positive on every result key -/

theorem countOf_insertAssoc_self (cs : List (Nat × Nat)) (k v : Nat) :
    countOf (insertAssoc cs k v) k = v := by
  unfold countOf
  rw [lookupAssoc_insertAssoc_self]
  rfl

theorem countOf_insertAssoc_ne (cs : List (Nat × Nat)) (k j v : Nat) (h : j ≠ k) :
    countOf (insertAssoc cs k v) j = countOf cs j := by
  unfold countOf
  rw [lookupAssoc_insertAssoc_ne _ _ _ _ h]

theorem walkLoopCounted_counts_pos {cfg : Config} {store : Store} :
    ∀ (fuel : Nat) (q : List Nat) (res : List (Nat × BTFType))
      (counts : List (Nat × Nat)) (r : List (Nat × BTFType)) (c : List (Nat × Nat)),
    walkLoopCounted cfg store fuel q res counts = some (r, c) →
    (∀ j ∈ keysFinset res, 1 ≤ countOf counts j) →
    ∀ i ∈ keysFinset r, 1 ≤ countOf c i := by
  intro fuel
  induction fuel with
  | zero =>
    intro q res counts r c h hinv
    cases q with
    | nil =>
      obtain ⟨h1, h2⟩ := Prod.mk.injEq .. ▸ Option.some.inj h
      subst h1; subst h2
      exact hinv
    | cons i rest => exact absurd h (by simp [walkLoopCounted])
  | succ fuel ih =>
    intro q res counts r c h hinv
    cases q with
    | nil =>
      obtain ⟨h1, h2⟩ := Prod.mk.injEq .. ▸ Option.some.inj h
      subst h1; subst h2
      exact hinv
    | cons i rest =>
      rw [walkLoopCounted] at h
      cases hstore : store[i]? with
      | none => rw [hstore] at h; cases h
      | some t =>
        rw [hstore] at h
        simp only [] at h
        apply ih _ _ _ _ _ h
        intro j hj
        rw [keysFinset_insertAssoc] at hj
        by_cases hji : j = i
        · subst hji
          rw [countOf_insertAssoc_self]
          exact Nat.le_add_left 1 _
        · rw [countOf_insertAssoc_ne _ _ _ _ hji]
          rcases Finset.mem_insert.mp hj with heq | hjres
          · exact absurd heq hji
          · exact hinv j hjres

/-! ## Membership in the accumulated maps -/

theorem insertAssoc_mem {κ α : Type} [DecidableEq κ] :
    ∀ (rs : List (κ × α)) (k : κ) (v : α) (p : κ × α),
    p ∈ insertAssoc rs k v → p ∈ rs ∨ p = (k, v) := by
  intro rs
  induction rs with
  | nil =>
    intro k v p hp
    simp only [insertAssoc] at hp
    rcases List.mem_singleton.mp hp with rfl
    exact Or.inr rfl
  | cons q rest ih =>
    intro k v p hp
    obtain ⟨k', v'⟩ := q
    by_cases h : k' = k
    · subst h
      simp only [insertAssoc, if_pos rfl] at hp
      rcases List.mem_cons.mp hp with rfl | hrest
      · exact Or.inr rfl
      · exact Or.inl (List.mem_cons_of_mem _ hrest)
    · simp only [insertAssoc, if_neg h] at hp
      rcases List.mem_cons.mp hp with rfl | hrest
      · exact Or.inl (List.mem_cons_self _ _)
      · rcases ih k v p hrest with h1 | h2
        · exact Or.inl (List.mem_cons_of_mem _ h1)
        · exact Or.inr h2

theorem foldInsert_mem {β κ α : Type} [DecidableEq κ] (key : β → κ) (val : β → α) :
    ∀ (bs : List β) (acc : List (κ × α)) (p : κ × α),
    p ∈ foldInsert key val acc bs → p ∈ acc ∨ ∃ b ∈ bs, p = (key b, val b) := by
  intro bs
  induction bs with
  | nil => intro acc p hp; exact Or.inl hp
  | cons b0 rest ih =>
    intro acc p hp
    rcases ih (insertAssoc acc (key b0) (val b0)) p hp with hacc | ⟨b, hb, rfl⟩
    · rcases insertAssoc_mem acc (key b0) (val b0) p hacc with h1 | h2
      · exact Or.inl h1
      · exact Or.inr ⟨b0, List.mem_cons_self _ _, h2⟩
    · exact Or.inr ⟨b, List.mem_cons_of_mem _ hb, rfl⟩

/-! ## The struct/union member map: last-write-wins lookup and size -/

theorem buildMembersMap_lookup (cfg : Config) (store : Store) (ms : List SrcMember)
    (n : String) :
    lookupAssoc (buildMembersMap cfg store ms) n =
      (ms.reverse.find? (fun m => decide (m.Name = n))).map (buildStructMember cfg store) := by
  have heq : buildMembersMap cfg store ms =
      foldInsert (fun m : SrcMember => m.Name) (buildStructMember cfg store) [] ms := rfl
  rw [heq, lookupAssoc_foldInsert]
  simp [lookupAssoc]

theorem buildMembersMap_length_lt (cfg : Config) (store : Store) (ms : List SrcMember)
    (h : ¬ (ms.map (fun m => m.Name)).Nodup) :
    (buildMembersMap cfg store ms).length < ms.length := by
  have heq : buildMembersMap cfg store ms =
      foldInsert (fun m : SrcMember => m.Name) (buildStructMember cfg store) [] ms := rfl
  rw [heq]
  exact length_foldInsert_lt_of_dup _ _ ms h

/-! ## Concrete fixtures used by witnesses and counterexamples -/

def cfgFF : Config := { isDereference := false, isAsMap := false }

def cfgTF : Config := { isDereference := true, isAsMap := false }

def cfgFT : Config := { isDereference := false, isAsMap := true }

def fooSrc : SrcStruct :=
  { Name := "Foo", Size := 6,
    Members := [{ Name := "v1", Type' := 1, OffsetBits := 0, BitfieldSize := 0 }] }

def dupSrc : SrcStruct :=
  { Name := "Dup", Size := 8,
    Members := [{ Name := "x", Type' := 1, OffsetBits := 0, BitfieldSize := 0 },
                { Name := "x", Type' := 3, OffsetBits := 32, BitfieldSize := 0 }] }

def dupUnion : SrcUnion :=
  { Name := "DU", Size := 4,
    Members := [{ Name := "y", Type' := 1, OffsetBits := 0, BitfieldSize := 0 },
                { Name := "y", Type' := 3, OffsetBits := 0, BitfieldSize := 0 }] }

def enumDup : SrcEnum :=
  { Name := "E", Size := 4, Signed := false,
    Values := [{ Name := "A", Value := 0 }, { Name := "B", Value := 0 }] }

def arrSrc : SrcArray := { Index := 1, Type' := 0, Nelems := 3 }

def pairSrc : SrcStruct :=
  { Name := "P", Size := 8,
    Members := [{ Name := "a", Type' := 1, OffsetBits := 0, BitfieldSize := 0 },
                { Name := "b", Type' := 3, OffsetBits := 32, BitfieldSize := 0 }] }

def demoStore : Store :=
  [ .void,
    .int { Name := "int", Size := 4, Encoding := "signed" },
    .struct fooSrc,
    .const { Type' := 1 },
    .typedef { Name := "td", Type' := 3 },
    .enum enumDup,
    .array arrSrc,
    .struct dupSrc ]

def expInt1 : BTFType :=
  .int { TypeName := "int", Name := "int", Size := 4, Encoding := "signed" }

def expFooPayload : BTFStruct :=
  { TypeName := "struct", Size := 6, Name := "Foo", MembersMap := none,
    Members := some [{ Name := "v1", Type' := 1, Offset := 0, BitFieldSize := 0, Size := 4 }] }

def expFoo : BTFType := .struct expFooPayload

def resC2 : List (Nat × BTFType) := [(2, expFoo), (1, expInt1)]

def S0 : Set Nat := {i | i = 1 ∨ i = 2}

theorem leastClosedS0 : IsLeastClosed cfgFF demoStore [2] S0 := by
  refine ⟨?_, ?_, ?_⟩
  · intro i hi
    rcases List.mem_cons.mp hi with rfl | h
    · exact Or.inr rfl
    · exact absurd h (List.not_mem_nil i)
  · intro k hk t ht d hd
    simp only [S0, Set.mem_setOf_eq] at hk
    rcases hk with rfl | rfl
    · have h1 : demoStore[1]? =
          some (TypeNode.int { Name := "int", Size := 4, Encoding := "signed" }) := rfl
      rw [h1] at ht
      cases Option.some.inj ht
      have hdeps : GetDependencies cfgFF (BTFTypeParser cfgFF demoStore
          (TypeNode.int { Name := "int", Size := 4, Encoding := "signed" })) = [] := rfl
      rw [hdeps] at hd
      exact absurd hd (List.not_mem_nil d)
    · have h2 : demoStore[2]? = some (TypeNode.struct fooSrc) := rfl
      rw [h2] at ht
      cases Option.some.inj ht
      have hdeps : GetDependencies cfgFF
          (BTFTypeParser cfgFF demoStore (TypeNode.struct fooSrc)) = [1] := rfl
      rw [hdeps] at hd
      rcases List.mem_singleton.mp hd with rfl
      exact Or.inl rfl
  · intro S' hroots hclosed i hi
    simp only [S0, Set.mem_setOf_eq] at hi
    have h2S : 2 ∈ S' := hroots 2 (List.mem_cons_self 2 [])
    rcases hi with rfl | rfl
    · have h2n : demoStore[2]? = some (TypeNode.struct fooSrc) := rfl
      have hdep : (1 : Nat) ∈ GetDependencies cfgFF
          (BTFTypeParser cfgFF demoStore (TypeNode.struct fooSrc)) := by
        rw [show GetDependencies cfgFF
          (BTFTypeParser cfgFF demoStore (TypeNode.struct fooSrc)) = [1] from rfl]
        exact List.mem_singleton.mpr rfl
      exact hclosed 2 h2S _ h2n 1 hdep
    · exact h2S

/-! ## Claims -/

/-- C1 (counterexample): with store `demoStore` and target list
`["int", "int"]`, both targets resolve to ID 1, which is enqueued twice and
converted twice — its Node-Converter invocation count is 2 although it is a
key of the result mapping.  The traversal loop performs no skip of a popped
worklist ID that is already present as a key, so the claim that each ID
becoming a key is converted by exactly one invocation is false. -/
theorem c1_counterexample :
    WalkForTargetTypesCounted cfgFF demoStore 10 ["int", "int"] =
      some ([(1, expInt1)], [(1, 2)]) := by
  decide

/-- C1 (amended): in closure mode, each ID that ever becomes a key in the
result mapping is converted by at least one Node Converter invocation — but
possibly by more than one, since the loop does not skip a popped ID already
present as a key; duplicates are filtered only at enqueue time, so an ID
enqueued several times before its first conversion (from duplicate roots or
multiple dependents) is converted once per queue occurrence, each
conversion overwriting the same key with the same value. -/
theorem c1_converted_at_least_once (cfg : Config) (store : Store) (fuel : Nat)
    (targets : List String) (r : List (Nat × BTFType)) (c : List (Nat × Nat))
    (h : WalkForTargetTypesCounted cfg store fuel targets = some (r, c)) :
    ∀ i ∈ keysFinset r, 1 ≤ countOf c i := by
  unfold WalkForTargetTypesCounted at h
  cases hroots : resolveRoots store targets with
  | none => rw [hroots] at h; cases h
  | some roots =>
    rw [hroots] at h
    exact walkLoopCounted_counts_pos fuel roots [] [] r c h
      (by intro j hj; exact absurd hj (by simp [keysFinset, keysList]))

/-- C1 (witness): the amended statement evaluated on the duplicate-root run. -/
theorem c1_witness :
    WalkForTargetTypesCounted cfgFF demoStore 10 ["int", "int"] =
      some ([(1, expInt1)], [(1, 2)]) ∧ 1 ≤ countOf [(1, 2)] 1 :=
  ⟨by decide,
   c1_converted_at_least_once cfgFF demoStore 10 ["int", "int"] [(1, expInt1)]
     [(1, 2)] (by decide) 1 (by decide)⟩

/-- C2: in closure mode the traversal always terminates (some fuel returns
an outcome for every store and root list), and whenever a run completes
successfully, the key set of the returned result mapping equals the
smallest set containing the roots that is closed under the Dependency Sets
of the converted nodes. -/
theorem c2_closure_completeness (cfg : Config) (store : Store) (roots : List Nat) :
    (∃ fuel w, walkLoop cfg store fuel roots [] = some w) ∧
    ∀ (fuel : Nat) (r : List (Nat × BTFType)) (S : Set Nat),
      walkLoop cfg store fuel roots [] = some (.ok r) →
      IsLeastClosed cfg store roots S →
      ∀ i, i ∈ keysFinset r ↔ i ∈ S := by
  constructor
  · exact walkLoop_terminates cfg store _ _ roots [] rfl rfl
  · intro fuel r S h hS i
    exact (walkLoop_keys_eq_reaches h i).trans (reaches_iff_mem_least hS i)

/-- C2 (witness): the specification's own scenario — store with void, int
and struct Foo, root `Foo` (ID 2) — has closure key set {1, 2}: the int is
included, the void is not. -/
theorem c2_witness :
    ((1 : Nat) ∈ keysFinset resC2 ↔ (1 : Nat) ∈ S0) ∧
    ((0 : Nat) ∈ keysFinset resC2 ↔ (0 : Nat) ∈ S0) :=
  ⟨(c2_closure_completeness cfgFF demoStore [2]).2 10 resC2 S0 (by decide)
     leastClosedS0 1,
   (c2_closure_completeness cfgFF demoStore [2]).2 10 resC2 S0 (by decide)
     leastClosedS0 0⟩

/-- C3 (counterexample): the enum `E` declares the values A and B, both
with numeric value 0.  With the as-map flag set the populated values map
has exactly one entry, keyed by the number 0 and carrying name "B":
the map is keyed by numeric value (`map[uint64]` in the source), not by
the declared name, and the declared value named "A" has no entry carrying
its name.  This refutes the claim that values_map is keyed by each value's
declared name. -/
theorem c3_counterexample :
    ({ Name := "A", Value := 0 } : SrcEnumValue) ∈ enumDup.Values ∧
    (BTFEnumParser cfgFT enumDup).ValuesMap =
      some [(0, { Name := "B", Value := 0 })] ∧
    ((BTFEnumParser cfgFT enumDup).ValuesMap.getD []).all
      (fun p => p.2.Name != "A") = true := by
  decide

/-- C3 (amended): for every enum node converted with the as-map flag set,
the populated values_map is keyed by each enum value's numeric value, not
its declared name: every entry's key equals the numeric value the entry
carries, every entry stems from a declared value, and looking up a declared
value's numeric value yields the entry of the last declared value with that
number, carrying that value's name and number (names colliding on one
number are overwritten). -/
theorem c3_values_map_keyed_by_value (cfg : Config) (t : SrcEnum)
    (h : cfg.isAsMap = true) :
    (BTFEnumParser cfg t).ValuesMap = some (buildValuesMap t.Values) ∧
    (∀ p ∈ buildValuesMap t.Values, p.2.Value = p.1 ∧
      ∃ v ∈ t.Values, p = (v.Value, ({ Name := v.Name, Value := v.Value } : BTFEnumValue))) ∧
    ∀ v ∈ t.Values,
      lookupAssoc (buildValuesMap t.Values) v.Value =
        (t.Values.reverse.find? (fun w => decide (w.Value = v.Value))).map
          (fun w => ({ Name := w.Name, Value := w.Value } : BTFEnumValue)) := by
  have heq : buildValuesMap t.Values =
      foldInsert (fun v : SrcEnumValue => v.Value)
        (fun v => ({ Name := v.Name, Value := v.Value } : BTFEnumValue)) [] t.Values := rfl
  refine ⟨by simp [BTFEnumParser, h], ?_, ?_⟩
  · intro p hp
    rw [heq] at hp
    rcases foldInsert_mem _ _ _ _ _ hp with hacc | ⟨b, hb, rfl⟩
    · exact absurd hacc (List.not_mem_nil p)
    · exact ⟨rfl, b, hb, rfl⟩
  · intro v hv
    rw [heq, lookupAssoc_foldInsert]
    simp [lookupAssoc]

/-- C3 (witness): the amended lookup rule evaluated on the colliding enum. -/
theorem c3_witness :
    cfgFT.isAsMap = true ∧
    lookupAssoc (buildValuesMap enumDup.Values) 0 =
      (enumDup.Values.reverse.find? (fun w => decide (w.Value = 0))).map
        (fun w => ({ Name := w.Name, Value := w.Value } : BTFEnumValue)) :=
  ⟨rfl, (c3_values_map_keyed_by_value cfgFT enumDup rfl).2.2
    { Name := "A", Value := 0 } (by decide)⟩

/-- C4 (counterexample): the token "const" — listed among the claim's
sixteen known category names — is rejected by the category mapping (whose
switch has no const case), as are the lowercase "datasec" and "float"; the
accepted data-section and float tokens are the capitalized "Datasec" and
"Float". -/
theorem c4_counterexample :
    NameToBTFType "const" = none ∧ NameToBTFType "datasec" = none ∧
    NameToBTFType "float" = none ∧ NameToBTFType "Datasec" ≠ none ∧
    NameToBTFType "Float" ≠ none := by
  decide

/-- C4 (amended): after trimming whitespace, the Root Resolver's category
token mapping succeeds exactly for the sixteen tokens void, int, pointer,
array, struct, union, enum, fwd, typedef, volatile, restrict, func,
funcproto, var, Datasec and Float — "const" is not accepted (a
const-qualified type cannot be targeted by category), and the data-section
and float tokens must be capitalized exactly — and it fails with the
bad-category panic for every other token. -/
theorem c4_category_tokens (s : String) :
    (NameToBTFType s).isSome = true ↔
      TrimSpace s ∈ ["void", "int", "pointer", "array", "struct", "union",
        "enum", "fwd", "typedef", "volatile", "restrict", "func", "funcproto",
        "var", "Datasec", "Float"] := by
  unfold NameToBTFType
  split <;> simp_all

/-- C5: for every array node, the Dependency Set returned by the extractor
is the index type ID listed twice: as a set it contains exactly the index
type ID, and the element type ID is not a member whenever it differs from
the index type ID.  The Traversal Engine tolerates the duplicate
idempotently: the closure key set depends on the Dependency Set only
through membership (the closure theorem characterises it via membership
alone), and re-enqueued duplicates re-convert to the identical value. -/
theorem c5_array_dependency_set (cfg : Config) (store : Store) (t : SrcArray) :
    (BTFArrayParser cfg store t).GetDependencies =
      [GetTypeID cfg store t.Index, GetTypeID cfg store t.Index] ∧
    (∀ x, x ∈ (BTFArrayParser cfg store t).GetDependencies ↔
      x = GetTypeID cfg store t.Index) ∧
    (GetTypeID cfg store t.Type' ≠ GetTypeID cfg store t.Index →
      GetTypeID cfg store t.Type' ∉ (BTFArrayParser cfg store t).GetDependencies) := by
  refine ⟨rfl, ?_, ?_⟩
  · intro x
    simp [BTFArrayParser, BTFArray.GetDependencies]
  · intro h
    simp [BTFArrayParser, BTFArray.GetDependencies, h]

/-- C5 (witness): the demo array (index type 1, element type 0): its
element type is not among its dependencies. -/
theorem c5_witness :
    GetTypeID cfgFF demoStore arrSrc.Type' ≠ GetTypeID cfgFF demoStore arrSrc.Index ∧
    GetTypeID cfgFF demoStore arrSrc.Type' ∉
      (BTFArrayParser cfgFF demoStore arrSrc).GetDependencies :=
  ⟨by decide, (c5_array_dependency_set cfgFF demoStore arrSrc).2.2 (by decide)⟩

/-- C6: the ID Resolution Rule.  With the dereference flag unset, a type
reference resolves to its own ID.  With the flag set, it resolves to the ID
of the first non-wrapper node reached by repeatedly stripping
const/volatile/restrict/typedef wrappers (stated for every stripping chain,
whose length never exceeds the store size since a longer chain would
revisit a node and never reach a non-wrapper).  Same-reference/same-flag
determinism within a run is definitional: GetTypeID is a pure function of
the flag, the store and the reference. -/
theorem c6_id_resolution_rule (cfg : Config) (store : Store) (r : Nat) :
    (cfg.isDereference = false → GetTypeID cfg store r = r) ∧
    ∀ j n, cfg.isDereference = true → StripChain store r j n → n ≤ store.length →
      GetTypeID cfg store r = j := by
  constructor
  · intro h
    simp [GetTypeID, h]
  · intro j n h hc hn
    have hu := UnderlyingType_of_chain hc (store.length + 1) (Nat.lt_succ_of_le hn)
    simp [GetTypeID, h, hu]

/-- C6 (witness): in the demo store, ID 4 is a typedef of the const at ID 3
wrapping the int at ID 1; with the dereference flag set the reference 4
resolves to 1. -/
theorem c6_witness :
    cfgTF.isDereference = true ∧ GetTypeID cfgTF demoStore 4 = 1 :=
  ⟨rfl, (c6_id_resolution_rule cfgTF demoStore 4).2 1 2 rfl
    (StripChain.cons rfl rfl (StripChain.cons rfl rfl (StripChain.done rfl rfl)))
    (by decide)⟩

/-- C7: shape exclusivity.  For every struct, union or enum node converted
in a run, exactly one of the two output shapes is populated — the map shape
is present exactly when the as-map flag is set and the list shape exactly
when it is not, uniformly for all three parsers under the same
configuration — never both, never neither. -/
theorem c7_shape_exclusivity (cfg : Config) (store : Store) (s : SrcStruct)
    (u : SrcUnion) (e : SrcEnum) :
    ((BTFStructParser cfg store s).MembersMap.isSome = cfg.isAsMap ∧
      (BTFStructParser cfg store s).Members.isSome = !cfg.isAsMap) ∧
    ((BTFUnionParser cfg store u).MembersMap.isSome = cfg.isAsMap ∧
      (BTFUnionParser cfg store u).Members.isSome = !cfg.isAsMap) ∧
    ((BTFEnumParser cfg e).ValuesMap.isSome = cfg.isAsMap ∧
      (BTFEnumParser cfg e).Values.isSome = !cfg.isAsMap) := by
  cases h : cfg.isAsMap <;>
    simp [BTFStructParser, BTFUnionParser, BTFEnumParser, h]

/-- C8: a successfully resolved root target yields the matched node's own
store ID: the node stored at the returned ID itself bears the requested
name (and category, when a category token was given).  Root resolution is
unaffected by the dereference flag — `resolveTarget` takes no configuration
at all, mirroring the source, whose root loop never reads the flag; the
flag only affects dependency IDs produced later by the Node Converter. -/
theorem c8_root_is_own_id (store : Store) (spec : String) (id : Nat)
    (h : resolveTarget store spec = some id) :
    ∃ t, store[id]? = some t ∧
      match cutColon (TrimSpace spec) with
      | some (a, b) => ∃ kind, NameToBTFType a = some kind ∧
          sameKind t kind = true ∧ nodeName t = b
      | none => nodeName t = TrimSpace spec := by
  simp only [resolveTarget] at h
  cases hcut : cutColon (TrimSpace spec) with
  | none =>
    rw [hcut] at h
    simp only [] at h
    unfold AnyTypeByName at h
    obtain ⟨t, hidx, hp⟩ := findIdx?_spec _ _ _ h
    exact ⟨t, hidx, eq_of_beq hp⟩
  | some ab =>
    obtain ⟨a, b⟩ := ab
    rw [hcut] at h
    simp only [] at h
    cases hk : NameToBTFType a with
    | none => rw [hk] at h; cases h
    | some kind =>
      rw [hk] at h
      simp only [] at h
      unfold TypeByName at h
      obtain ⟨t, hidx, hp⟩ := findIdx?_spec _ _ _ h
      rw [Bool.and_eq_true] at hp
      exact ⟨t, hidx, kind, hk, hp.1, eq_of_beq hp.2⟩

/-- C8 (witness): the bare-name target "td" resolves to ID 4 — the typedef
node's own ID, not the ID 1 it dereferences to — and the node at ID 4
indeed bears the name td. -/
theorem c8_witness :
    resolveTarget demoStore "td" = some 4 ∧
    ∃ t, demoStore[4]? = some t ∧ nodeName t = TrimSpace "td" :=
  ⟨by decide, c8_root_is_own_id demoStore "td" 4 (by decide)⟩

/-- C9 (counterexample): the dependency sequence of a struct export in
as-map mode is not determined by the Exported Node alone.  The struct P has
two members a and b with distinct resolved type IDs; its member map's
insertion order and its reversal are both admissible iteration orders of
the Go map range (each a permutation of the entries), yet the two
invocations of the extractor return different sequences.  This refutes the
claim that two invocations of GetDependencies on the same node return the
same sequence of dependency IDs under either setting of the as-map flag. -/
theorem c9_counterexample :
    cfgFT.isAsMap = true ∧
    ((((BTFStructParser cfgFT demoStore pairSrc).MembersMap.getD []).reverse).Perm
      ((BTFStructParser cfgFT demoStore pairSrc).MembersMap.getD [])) ∧
    BTFStruct.GetDependenciesRange cfgFT (BTFStructParser cfgFT demoStore pairSrc)
        ((BTFStructParser cfgFT demoStore pairSrc).MembersMap.getD []) ≠
      BTFStruct.GetDependenciesRange cfgFT (BTFStructParser cfgFT demoStore pairSrc)
        (((BTFStructParser cfgFT demoStore pairSrc).MembersMap.getD []).reverse) :=
  ⟨rfl, List.reverse_perm _, by decide⟩

/-- C9 (amended): the Dependency Extractor for struct and union nodes is a
pure function of the Exported Node, the as-map flag and the range
statement's iteration order — it never consults the Type Store, and its
output depends on the export's member fields alone.  With the flag unset,
every invocation returns the members' resolved type IDs in the export's
declaration order, identically across invocations.  With the flag set, an
invocation enumerates the member map's entries' type IDs in that
invocation's (unspecified) iteration order, so two invocations on the same
node return the same dependency IDs up to order — permutations of each
other, the same multiset — but not necessarily the same sequence.  The
engine model's `GetDependencies` is the instance at the map's insertion
order, one admissible order. -/
theorem c9_extractor_agree_up_to_order (cfg : Config) (store : Store)
    (s : SrcStruct) (u : SrcUnion) :
    (cfg.isAsMap = false → ∀ order,
      BTFStruct.GetDependenciesRange cfg (BTFStructParser cfg store s) order =
        s.Members.map (fun m => GetTypeID cfg store m.Type')) ∧
    (cfg.isAsMap = true → ∀ order,
      BTFStruct.GetDependenciesRange cfg (BTFStructParser cfg store s) order =
        order.map (fun p => p.2.Type')) ∧
    (∀ order₁ order₂,
      order₁.Perm ((BTFStructParser cfg store s).MembersMap.getD []) →
      order₂.Perm ((BTFStructParser cfg store s).MembersMap.getD []) →
      (BTFStruct.GetDependenciesRange cfg (BTFStructParser cfg store s) order₁).Perm
        (BTFStruct.GetDependenciesRange cfg (BTFStructParser cfg store s) order₂)) ∧
    (∀ (w : BTFStruct) order, w.Members = (BTFStructParser cfg store s).Members →
      BTFStruct.GetDependenciesRange cfg w order =
        BTFStruct.GetDependenciesRange cfg (BTFStructParser cfg store s) order) ∧
    (∀ v : BTFStruct, BTFStruct.GetDependencies cfg v =
      BTFStruct.GetDependenciesRange cfg v (v.MembersMap.getD [])) ∧
    (cfg.isAsMap = false → ∀ order,
      BTFUnion.GetDependenciesRange cfg (BTFUnionParser cfg store u) order =
        u.Members.map (fun m => GetTypeID cfg store m.Type')) ∧
    (cfg.isAsMap = true → ∀ order,
      BTFUnion.GetDependenciesRange cfg (BTFUnionParser cfg store u) order =
        order.map (fun p => p.2.Type')) ∧
    (∀ order₁ order₂,
      order₁.Perm ((BTFUnionParser cfg store u).MembersMap.getD []) →
      order₂.Perm ((BTFUnionParser cfg store u).MembersMap.getD []) →
      (BTFUnion.GetDependenciesRange cfg (BTFUnionParser cfg store u) order₁).Perm
        (BTFUnion.GetDependenciesRange cfg (BTFUnionParser cfg store u) order₂)) ∧
    (∀ (w : BTFUnion) order, w.Members = (BTFUnionParser cfg store u).Members →
      BTFUnion.GetDependenciesRange cfg w order =
        BTFUnion.GetDependenciesRange cfg (BTFUnionParser cfg store u) order) ∧
    (∀ v : BTFUnion, BTFUnion.GetDependencies cfg v =
      BTFUnion.GetDependenciesRange cfg v (v.MembersMap.getD [])) := by
  refine ⟨?_, ?_, ?_, ?_, ?_, ?_, ?_, ?_, ?_, ?_⟩
  · intro h order
    simp [BTFStruct.GetDependenciesRange, BTFStructParser, h, List.map_map,
      Function.comp, buildStructMember]
  · intro h order
    simp [BTFStruct.GetDependenciesRange, h]
  · intro order₁ order₂ h1 h2
    cases h : cfg.isAsMap
    · simp [BTFStruct.GetDependenciesRange, h]
    · simp only [BTFStruct.GetDependenciesRange, h, if_pos]
      exact (h1.trans h2.symm).map _
  · intro w order h1
    simp [BTFStruct.GetDependenciesRange, h1]
  · intro v
    cases h : cfg.isAsMap <;>
      simp [BTFStruct.GetDependencies, BTFStruct.GetDependenciesRange, h]
  · intro h order
    simp [BTFUnion.GetDependenciesRange, BTFUnionParser, h, List.map_map,
      Function.comp, buildStructMember]
  · intro h order
    simp [BTFUnion.GetDependenciesRange, h]
  · intro order₁ order₂ h1 h2
    cases h : cfg.isAsMap
    · simp [BTFUnion.GetDependenciesRange, h]
    · simp only [BTFUnion.GetDependenciesRange, h, if_pos]
      exact (h1.trans h2.symm).map _
  · intro w order h1
    simp [BTFUnion.GetDependenciesRange, h1]
  · intro v
    cases h : cfg.isAsMap <;>
      simp [BTFUnion.GetDependencies, BTFUnion.GetDependenciesRange, h]

/-- C9 (witness): two admissible invocations on struct P in as-map mode
agree up to order (their sequences are permutations of each other), and in
list mode the invocation on struct Foo returns exactly the members'
resolved type IDs in declaration order. -/
theorem c9_witness :
    (BTFStruct.GetDependenciesRange cfgFT (BTFStructParser cfgFT demoStore pairSrc)
        ((BTFStructParser cfgFT demoStore pairSrc).MembersMap.getD [])).Perm
      (BTFStruct.GetDependenciesRange cfgFT (BTFStructParser cfgFT demoStore pairSrc)
        (((BTFStructParser cfgFT demoStore pairSrc).MembersMap.getD []).reverse)) ∧
    cfgFF.isAsMap = false ∧
    BTFStruct.GetDependenciesRange cfgFF (BTFStructParser cfgFF demoStore fooSrc)
      ((BTFStructParser cfgFF demoStore fooSrc).MembersMap.getD []) =
      fooSrc.Members.map (fun m => GetTypeID cfgFF demoStore m.Type') :=
  ⟨(c9_extractor_agree_up_to_order cfgFT demoStore pairSrc dupUnion).2.2.1 _ _
     (List.Perm.refl _) (List.reverse_perm _),
   rfl,
   (c9_extractor_agree_up_to_order cfgFF demoStore fooSrc dupUnion).1 rfl _⟩

/-- C10: for every struct or union node converted with the as-map flag set,
the populated members map binds each member name to the projection of the
last member with that name in declaration order (last-write-wins, the Go
map assignment), and when the source members contain duplicate names the
map shape carries strictly fewer entries than the list shape (whose length
is the member count) would for the same node. -/
theorem c10_members_map_last_wins (cfg : Config) (store : Store)
    (s : SrcStruct) (u : SrcUnion) (hmap : cfg.isAsMap = true) :
    ((BTFStructParser cfg store s).MembersMap =
        some (buildMembersMap cfg store s.Members) ∧
      (∀ n : String, lookupAssoc (buildMembersMap cfg store s.Members) n =
        (s.Members.reverse.find? (fun m => decide (m.Name = n))).map
          (buildStructMember cfg store)) ∧
      (¬ (s.Members.map (fun m => m.Name)).Nodup →
        (buildMembersMap cfg store s.Members).length < s.Members.length)) ∧
    ((BTFUnionParser cfg store u).MembersMap =
        some (buildMembersMap cfg store u.Members) ∧
      (∀ n : String, lookupAssoc (buildMembersMap cfg store u.Members) n =
        (u.Members.reverse.find? (fun m => decide (m.Name = n))).map
          (buildStructMember cfg store)) ∧
      (¬ (u.Members.map (fun m => m.Name)).Nodup →
        (buildMembersMap cfg store u.Members).length < u.Members.length)) := by
  refine ⟨⟨by simp [BTFStructParser, hmap], ?_, ?_⟩,
    by simp [BTFUnionParser, hmap], ?_, ?_⟩
  · intro n
    exact buildMembersMap_lookup cfg store s.Members n
  · intro hdup
    exact buildMembersMap_length_lt cfg store s.Members hdup
  · intro n
    exact buildMembersMap_lookup cfg store u.Members n
  · intro hdup
    exact buildMembersMap_length_lt cfg store u.Members hdup

/-- C10 (witness): the struct Dup with two members named x: the map binds x
to the projection of the second (last) member and carries one entry against
the two of the list shape. -/
theorem c10_witness :
    cfgFT.isAsMap = true ∧
    lookupAssoc (buildMembersMap cfgFT demoStore dupSrc.Members) "x" =
      (dupSrc.Members.reverse.find? (fun m => decide (m.Name = "x"))).map
        (buildStructMember cfgFT demoStore) ∧
    (buildMembersMap cfgFT demoStore dupSrc.Members).length < dupSrc.Members.length :=
  ⟨rfl,
   ((c10_members_map_last_wins cfgFT demoStore dupSrc dupUnion rfl).1).2.1 "x",
   ((c10_members_map_last_wins cfgFT demoStore dupSrc dupUnion rfl).1).2.2 (by decide)⟩
